import Mathlib

/-!
Verification development for the transaction normalization and aggregation
pipeline of the customer-porting insight-report application (src/app.py).

The pandas dataframe is embedded as a list of `Tx` records.  Raw CSV input is
embedded as a `RawTable` (a header column list plus rows of optional string
cells; a missing cell stands for an empty / NaN field).  Randomness in the
sampling step is embedded as a seed-indexed draw-without-replacement over row
indices, quantified over all seeds.  Amounts are embedded as exact rationals.
-/

namespace PortingDemo

/-- Code-point comparison of characters, mirroring Python string ordering. -/
def charLt (a b : Char) : Bool := decide (a < b)

/-- Lexicographic strict order on character lists (Python `str` `<`). -/
def lexLt : List Char → List Char → Bool
  | [], [] => false
  | [], _ :: _ => true
  | _ :: _, [] => false
  | a :: as, b :: bs => charLt a b || (a == b && lexLt as bs)

/-- Strict lexicographic order on strings via their character data. -/
def strLt (s t : String) : Bool := lexLt s.data t.data

/-- Reflexive lexicographic order on strings. -/
def strLe (s t : String) : Bool := strLt s t || s == t

/-- Does the character list `pat` occur contiguously inside `l`?
Mirrors substring containment as used by `Series.str.contains`. -/
def containsSeq (pat : List Char) : List Char → Bool
  | [] => pat.isEmpty
  | c :: cs => pat.isPrefixOf (c :: cs) || containsSeq pat cs

/-- Lower-cased character data of a string (case-insensitive matching). -/
def lowerData (s : String) : List Char := s.data.map Char.toLower

/-- The reclassification condition of app.py line 42:
`df.loc[df.Description.str.contains("Freelance|Dividend|Refund|Interest",
case=False, na=False), "Transaction_Type"] = "Credit"`.
A missing description never matches (`na=False`). -/
def matchesKeyword (d : Option String) : Bool :=
  match d with
  | none => false
  | some s =>
    containsSeq "freelance".data (lowerData s) ||
    containsSeq "dividend".data (lowerData s) ||
    containsSeq "refund".data (lowerData s) ||
    containsSeq "interest".data (lowerData s)

/-- Value of all digits of `l` read in base 10, or `none` if `l` is empty or
holds a non-digit.  Used by the numeric-coercion model. -/
def digitsVal (l : List Char) : Option Nat :=
  if l.isEmpty then none
  else if l.all Char.isDigit then
    some (l.foldl (fun n c => 10 * n + (c.toNat - 48)) 0)
  else none

/-- Unsigned decimal numeral: digits with an optional fractional part.
Models the numeric grammar accepted by `pd.to_numeric`. -/
def parseUnsigned (l : List Char) : Option ℚ :=
  match l.span (fun c => c != '.') with
  | (ip, []) => (digitsVal ip).map (fun n => (n : ℚ))
  | (ip, _ :: fp) =>
    match digitsVal ip, digitsVal fp with
    | some n, some f => some ((n : ℚ) + (f : ℚ) / ((10 : ℚ) ^ fp.length))
    | _, _ => none

/-- Signed decimal numeral parse; `none` models a value `pd.to_numeric`
turns into NaN under `errors="coerce"`. -/
def parseNumeric (s : String) : Option ℚ :=
  match s.data with
  | '-' :: rest => (parseUnsigned rest).map (fun q => -q)
  | l => parseUnsigned l

/-- app.py lines 38-39: `pd.to_numeric(col, errors="coerce").fillna(0)`.
A missing cell (NaN) or a non-numeric cell coerces to `0`; this function is
total, so no input raises. -/
def coerceAmount (v : Option String) : ℚ :=
  match v with
  | none => 0
  | some s =>
    match parseNumeric s with
    | some q => q
    | none => 0

/-- Calendar-date parse of a `YYYY-MM-DD` string; `none` models the
`pd.to_datetime` exception on an unparseable date, which aborts the load. -/
def parseDate (s : String) : Option (Nat × Nat × Nat) :=
  match s.data.span (fun c => c != '-') with
  | (ys, _ :: rest) =>
    match rest.span (fun c => c != '-') with
    | (ms, _ :: ds) =>
      match digitsVal ys, digitsVal ms, digitsVal ds with
      | some y, some m, some d =>
        if 1 ≤ m ∧ m ≤ 12 ∧ 1 ≤ d ∧ d ≤ 31 then some (y, m, d) else none
      | _, _, _ => none
    | _ => none
  | _ => none

/-- A date cell is acceptable to `pd.to_datetime` when it is missing
(NaN becomes NaT without an error) or parses as a calendar date. -/
def dateOk (v : Option String) : Bool :=
  match v with
  | none => true
  | some s => (parseDate s).isSome

/-- Derived year-month period key (app.py line 40,
`dt.to_period("M").astype(str)`); `none` stands for the `"NaT"` period string
of a missing date, which is still a non-null grouping key. -/
def monthOf (v : Option String) : Option (Nat × Nat) :=
  match v with
  | none => none
  | some s => (parseDate s).map (fun d => (d.1, d.2.1))

/-- One normalized transaction row of the loaded dataframe.  `inflow_source`
is the column that app.py line 215 later assigns; at load time it is absent,
embedded as `none`. -/
structure Tx where
  date : Option (Nat × Nat × Nat)
  description : Option String
  debit_amount : ℚ
  credit_amount : ℚ
  category : Option String
  beneficiary_name : Option String
  transaction_type : Option String
  month : Option (Nat × Nat)
  inflow_source : Option String := none
deriving DecidableEq

/-- The reclassification pass of app.py line 42 on one row: force the type
to `Credit` exactly when the description matches the keyword set. -/
def reclassify (t : Tx) : Tx :=
  if matchesKeyword t.description then { t with transaction_type := some "Credit" } else t

/-- A raw CSV record; a `none` cell is an empty field (read as NaN). -/
structure RawRow where
  transaction_date : Option String
  description : Option String
  debit_amount : Option String
  credit_amount : Option String
  category : Option String
  beneficiary_name : Option String
  transaction_type : Option String
deriving DecidableEq

/-- A raw CSV table: the header (present columns) and the records. -/
structure RawTable where
  cols : List String
  rows : List RawRow
deriving DecidableEq

/-- Does the table provide a column?  Accessing an absent column raises a
`KeyError` in pandas, which `load_and_preprocess_data` catches. -/
def hasCol (t : RawTable) (c : String) : Bool := t.cols.contains c

/-- Normalization of one raw record into a transaction (the per-row part of
app.py lines 37-42 before reclassification). -/
def buildTx (r : RawRow) : Tx :=
  { date := match r.transaction_date with
            | none => none
            | some s => parseDate s
  , description := r.description
  , debit_amount := coerceAmount r.debit_amount
  , credit_amount := coerceAmount r.credit_amount
  , category := r.category
  , beneficiary_name := r.beneficiary_name
  , transaction_type := r.transaction_type
  , month := monthOf r.transaction_date
  , inflow_source := none }

/-- app.py `load_and_preprocess_data` (lines 34-46): `none` models the
caught-exception path that returns `None`.  The guards follow the order of
the column accesses in the source: `Transaction_Date` (with the hard-fail
date parse), `Debit_Amount`, `Credit_Amount`, then `Description` for the
reclassification mask.  The `Transaction_Type` assignment and the `Category`
and `Beneficiary_Name` columns are never read here, so their absence does
not abort the load. -/
def load (t : RawTable) : Option (List Tx) :=
  if !(hasCol t "Transaction_Date") then none
  else if !(t.rows.all (fun r => dateOk r.transaction_date)) then none
  else if !(hasCol t "Debit_Amount") then none
  else if !(hasCol t "Credit_Amount") then none
  else if !(hasCol t "Description") then none
  else some ((t.rows.map buildTx).map reclassify)

/-- Stable insertion of `x` into `l`: `x` goes in front of the first element
`y` with `le x y`. -/
def insertLe (le : α → α → Bool) (x : α) : List α → List α
  | [] => [x]
  | y :: ys => if le x y then x :: y :: ys else y :: insertLe le x ys

/-- Stable insertion sort with respect to `le`. -/
def sortLe (le : α → α → Bool) : List α → List α
  | [] => []
  | x :: xs => insertLe le x (sortLe le xs)

/-- Ordering of period keys as their period strings compare in pandas
(chronological; the `"NaT"` key sorts last). -/
def monthLe (a b : Option (Nat × Nat)) : Bool :=
  match a, b with
  | none, none => true
  | none, some _ => false
  | some _, none => true
  | some x, some y => decide (x.1 < y.1) || (x.1 == y.1 && decide (x.2 ≤ y.2))

/-- app.py lines 131-134: `df.groupby("Month").agg(Total_Income=("Credit_Amount",
"sum"), Total_Spending=("Debit_Amount", "sum"))`.  Each summary row is
(period key, total income, total spending); keys are sorted as pandas
`groupby` sorts them. -/
def monthlySummary (df : List Tx) : List ((Option (Nat × Nat)) × ℚ × ℚ) :=
  (sortLe monthLe (df.map (fun t => t.month)).dedup).map
    (fun k => (k,
      ((df.filter (fun t => t.month == k)).map (fun t => t.credit_amount)).sum,
      ((df.filter (fun t => t.month == k)).map (fun t => t.debit_amount)).sum))

/-- One leaderboard entry: grouping key, summed amount, row count. -/
structure Entry where
  key : String
  total : ℚ
  freq : Nat
deriving DecidableEq

/-- The rows of `l` falling into the group of key `k` (NaN keys fall into no
group: pandas `groupby` drops them). -/
def rowsWithKey (key : Tx → Option String) (k : String) (l : List Tx) : List Tx :=
  l.filter (fun t => key t == some k)

/-- Group keys of a `groupby(key)`: the distinct non-null keys, sorted as
pandas sorts group keys (`sort=True`). -/
def groupKeys (key : Tx → Option String) (l : List Tx) : List String :=
  sortLe strLe (l.filterMap key).dedup

/-- `groupby(key)[amt].agg(["sum", "count"])`: one entry per distinct
non-null key, with the group sum and group size. -/
def groupAgg (key : Tx → Option String) (amt : Tx → ℚ) (l : List Tx) : List Entry :=
  (groupKeys key l).map
    (fun k => ⟨k, ((rowsWithKey key k l).map amt).sum, (rowsWithKey key k l).length⟩)

/-- Rows with a positive debit amount (`df[df["Debit_Amount"] > 0]`). -/
def debitRows (df : List Tx) : List Tx := df.filter (fun t => decide (0 < t.debit_amount))

/-- Rows with a positive credit amount (`df[df["Credit_Amount"] > 0]`). -/
def creditRows (df : List Tx) : List Tx := df.filter (fun t => decide (0 < t.credit_amount))

/-- Descending comparison on entry totals, the key of
`sort_values(by="sum", ascending=False)`. -/
def entLe (a b : Entry) : Bool := decide (b.total ≤ a.total)

/-- `sort_values(by="sum", ascending=False)` on aggregated entries,
embedded as a stable descending sort on the total. -/
def sortEntriesDesc (l : List Entry) : List Entry := sortLe entLe l

/-- app.py lines 209-211: group positive-debit rows by `Beneficiary_Name`,
aggregate sum and count. -/
def outflowEntries (df : List Tx) : List Entry :=
  groupAgg (fun t => t.beneficiary_name) (fun t => t.debit_amount) (debitRows df)

/-- Top-10 outflow leaderboard (`.sort_values(by="sum", ascending=False).head(10)`). -/
def outflowLeaderboard (df : List Tx) : List Entry :=
  (sortEntriesDesc (outflowEntries df)).take 10

/-- app.py line 215: `row["Beneficiary_Name"] if pd.notna(row["Beneficiary_Name"])
else row["Description"]`. -/
def inflowSource (t : Tx) : Option String :=
  match t.beneficiary_name with
  | some b => some b
  | none => t.description

/-- app.py line 215 as a dataframe operation: assign the derived
`Inflow_Source` column on every row, in place. -/
def assignInflowSource (df : List Tx) : List Tx :=
  df.map (fun t => { t with inflow_source := inflowSource t })

/-- A transaction with its dynamically added column removed again; used to
state which fields the pipeline leaves untouched. -/
def eraseInflow (t : Tx) : Tx := { t with inflow_source := none }

/-- app.py line 216: group positive-credit rows by the `Inflow_Source` key. -/
def inflowEntries (df : List Tx) : List Entry :=
  groupAgg inflowSource (fun t => t.credit_amount) (creditRows df)

/-- Top-10 inflow leaderboard. -/
def inflowLeaderboard (df : List Tx) : List Entry :=
  (sortEntriesDesc (inflowEntries df)).take 10

/-- Summed credit amount of the inflow group of key `k`. -/
def inflowTotal (df : List Tx) (k : String) : ℚ :=
  ((rowsWithKey inflowSource k (creditRows df)).map (fun t => t.credit_amount)).sum

/-- Draw `k` row indices without replacement from the index pool: each step
picks a seed-determined position and removes it from the pool.  This is the
embedding of `df.sample(k)`; the distribution over seeds stands for the
uniform draw, and every seed satisfies the contracts proved below. -/
def drawIdx (seed : Nat) : Nat → List Nat → List Nat
  | 0, _ => []
  | k + 1, pool =>
    if h : 0 < pool.length then
      let x := pool.get ⟨seed % pool.length, Nat.mod_lt seed h⟩
      x :: drawIdx (seed + 1) k (pool.erase x)
    else []

/-- app.py lines 51-54: the source-row indices serialized into the insight
request; a sample of 500 when the set is larger than 500, else all rows. -/
def sampleIndices (seed : Nat) (df : List Tx) : List Nat :=
  if 500 < df.length then drawIdx seed 500 (List.range df.length) else List.range df.length

/-- Placeholder row used only as the (unreachable) fallback of index lookup. -/
def defaultTx : Tx :=
  { date := none, description := none, debit_amount := 0, credit_amount := 0
  , category := none, beneficiary_name := none, transaction_type := none
  , month := none }

/-- The rows of the serialized excerpt of the insight request. -/
def sampleRows (seed : Nat) (df : List Tx) : List Tx :=
  (sampleIndices seed df).map (fun i => df.getD i defaultTx)

/-- app.py lines 86-90: the generation call is wrapped in `try`/`except`; a
failure of the external capability is converted into a diagnostic string,
never re-raised, so the function is total with result type `String`. -/
def getGeminiInsights (gen : String → Except String String) (prompt : String) : String :=
  match gen prompt with
  | Except.ok text => text
  | Except.error e => "Could not generate insights due to an error: " ++ e

/-- Concrete example rows and tables used by the closed witness and
counterexample theorems below. -/
def txC10 : Tx :=
  { date := none, description := some "ATM cash withdrawal", debit_amount := 5
  , credit_amount := 0, category := some "Cash", beneficiary_name := none
  , transaction_type := some "Debit", month := some (2024, 1) }

def txZeta : Tx :=
  { date := none, description := some "card payment", debit_amount := 100
  , credit_amount := 0, category := some "Shopping"
  , beneficiary_name := some "Zeta Stores", transaction_type := some "Debit"
  , month := some (2024, 1) }

def txAlpha : Tx :=
  { date := none, description := some "card payment", debit_amount := 100
  , credit_amount := 0, category := some "Shopping"
  , beneficiary_name := some "Alpha Mart", transaction_type := some "Debit"
  , month := some (2024, 1) }

def txRefund : Tx :=
  { date := none, description := some "Refund from store", debit_amount := 0
  , credit_amount := 250, category := some "Shopping", beneficiary_name := none
  , transaction_type := some "Debit", month := some (2024, 2) }

def txNoKey : Tx :=
  { date := none, description := none, debit_amount := 0
  , credit_amount := 100, category := some "Misc", beneficiary_name := none
  , transaction_type := some "Credit", month := some (2024, 1) }

def rowSalary : RawRow :=
  { transaction_date := some "2024-01-15", description := some "Salary credit"
  , debit_amount := some "0", credit_amount := some "55000", category := none
  , beneficiary_name := some "Acme Corp", transaction_type := some "Credit" }

def tableMissingCategory : RawTable :=
  { cols := ["Transaction_Date", "Description", "Debit_Amount", "Credit_Amount",
      "Beneficiary_Name", "Transaction_Type"]
  , rows := [rowSalary] }

def tableMissingDebit : RawTable :=
  { cols := ["Transaction_Date", "Description", "Credit_Amount", "Category",
      "Beneficiary_Name", "Transaction_Type"]
  , rows := [] }

def txBene : Tx :=
  { date := none, description := some "Online order", debit_amount := 1200
  , credit_amount := 0, category := some "Shopping"
  , beneficiary_name := some "Amazon", transaction_type := some "Debit"
  , month := some (2024, 3) }

/-- The order actually delivered by the leaderboard pipeline: strictly
descending totals, and equal totals ordered by ascending grouping key. -/
def entOrd (a b : Entry) : Prop :=
  b.total < a.total ∨ (b.total = a.total ∧ strLt a.key b.key = true)

lemma sum_map_zero {β : Type} (l : List β) : (l.map (fun _ => (0:ℚ))).sum = 0 := by
  induction l with
  | nil => simp
  | cons a l ih => simp [ih]

lemma sum_map_add {β : Type} (g h : β → ℚ) (l : List β) :
    (l.map (fun k => g k + h k)).sum = (l.map g).sum + (l.map h).sum := by
  induction l with
  | nil => simp
  | cons a l ih => simp [ih]; ring

lemma sum_map_indicator_zero {β : Type} [DecidableEq β] (x : β) (c : ℚ) (ks : List β)
    (hx : x ∉ ks) : (ks.map (fun k => if x = k then c else 0)).sum = 0 := by
  induction ks with
  | nil => simp
  | cons k ks ih =>
    have hxk : ¬(x = k) := fun h => hx (h ▸ List.mem_cons_self k ks)
    have hxs : x ∉ ks := fun h => hx (List.mem_cons_of_mem _ h)
    simp only [List.map_cons, List.sum_cons, if_neg hxk, ih hxs, zero_add]

lemma sum_map_indicator {β : Type} [DecidableEq β] (x : β) (c : ℚ) (ks : List β)
    (hnd : ks.Nodup) (hx : x ∈ ks) :
    (ks.map (fun k => if x = k then c else 0)).sum = c := by
  induction ks with
  | nil => simp at hx
  | cons k ks ih =>
    rcases List.mem_cons.mp hx with h | h
    · subst h
      have hn : x ∉ ks := (List.nodup_cons.mp hnd).1
      simp [sum_map_indicator_zero x c ks hn]
    · have hxk : ¬(x = k) := by
        intro he; exact (List.nodup_cons.mp hnd).1 (he ▸ h)
      simp only [List.map_cons, List.sum_cons, if_neg hxk,
        ih (List.nodup_cons.mp hnd).2 h, zero_add]

lemma sum_groups {α β : Type} [DecidableEq β] [BEq β] [LawfulBEq β] (key : α → β) (f : α → ℚ)
    (ks : List β) (df : List α) (hnd : ks.Nodup) (hmem : ∀ t ∈ df, key t ∈ ks) :
    (ks.map (fun k => ((df.filter (fun t => key t == k)).map f).sum)).sum
      = (df.map f).sum := by
  induction df with
  | nil =>
    simp only [List.filter_nil, List.map_nil, List.sum_nil]
    exact sum_map_zero ks
  | cons t ts ih =>
    have hstep : ∀ k : β, (((t :: ts).filter (fun u => key u == k)).map f).sum
        = (if key t = k then f t else 0)
          + ((ts.filter (fun u => key u == k)).map f).sum := by
      intro k
      by_cases h : key t = k
      · simp [List.filter_cons, h]
      · simp [List.filter_cons, h]
    have hmap : ks.map (fun k => (((t :: ts).filter (fun u => key u == k)).map f).sum)
        = ks.map (fun k => (if key t = k then f t else 0)
            + ((ts.filter (fun u => key u == k)).map f).sum) :=
      List.map_congr_left (fun k _ => hstep k)
    rw [hmap, sum_map_add, sum_map_indicator (key t) (f t) ks hnd (hmem t (List.mem_cons_self t ts)),
      ih (fun u hu => hmem u (List.mem_cons_of_mem _ hu))]
    simp

lemma insertLe_perm (le : α → α → Bool) (x : α) (l : List α) :
    (insertLe le x l).Perm (x :: l) := by
  induction l with
  | nil => simp [insertLe]
  | cons y ys ih =>
    by_cases h : le x y
    · simp [insertLe, h]
    · simp only [insertLe, h, Bool.false_eq_true, if_false]
      exact ((ih.cons y).trans (List.Perm.swap x y ys))

lemma sortLe_perm (le : α → α → Bool) (l : List α) : (sortLe le l).Perm l := by
  induction l with
  | nil => simp [sortLe]
  | cons x xs ih => exact (insertLe_perm le x (sortLe le xs)).trans (ih.cons x)

lemma mem_insertLe {le : α → α → Bool} {x a : α} {l : List α} :
    a ∈ insertLe le x l ↔ a = x ∨ a ∈ l := by
  rw [(insertLe_perm le x l).mem_iff, List.mem_cons]

lemma insertLe_pairwise (le : α → α → Bool)
    (htot : ∀ a b, le a b = true ∨ le b a = true)
    (htrans : ∀ a b c, le a b = true → le b c = true → le a c = true)
    (x : α) (l : List α) (hl : l.Pairwise (fun a b => le a b = true)) :
    (insertLe le x l).Pairwise (fun a b => le a b = true) := by
  induction l with
  | nil => simp [insertLe]
  | cons y ys ih =>
    rcases List.pairwise_cons.mp hl with ⟨hy, hys⟩
    by_cases h : le x y
    · simp only [insertLe, h, if_true]
      refine List.pairwise_cons.mpr ⟨?_, hl⟩
      intro z hz
      rcases List.mem_cons.mp hz with h1 | hz
      · subst h1; exact h
      · exact htrans x y z h (hy z hz)
    · simp only [insertLe, h, Bool.false_eq_true, if_false]
      refine List.pairwise_cons.mpr ⟨?_, ih hys⟩
      intro z hz
      rcases mem_insertLe.mp hz with h1 | hz
      · subst h1
        rcases htot z y with h1 | h1
        · exact absurd h1 h
        · exact h1
      · exact hy z hz

lemma sortLe_pairwise (le : α → α → Bool)
    (htot : ∀ a b, le a b = true ∨ le b a = true)
    (htrans : ∀ a b c, le a b = true → le b c = true → le a c = true)
    (l : List α) : (sortLe le l).Pairwise (fun a b => le a b = true) := by
  induction l with
  | nil => simp [sortLe]
  | cons x xs ih => exact insertLe_pairwise le htot htrans x (sortLe le xs) ih

lemma lexLt_trans : ∀ as bs cs : List Char,
    lexLt as bs = true → lexLt bs cs = true → lexLt as cs = true := by
  intro as
  induction as with
  | nil =>
    intro bs cs h1 h2
    cases bs with
    | nil => simp [lexLt] at h1
    | cons b bs =>
      cases cs with
      | nil => simp [lexLt] at h2
      | cons c cs => simp [lexLt]
  | cons a as ih =>
    intro bs cs h1 h2
    cases bs with
    | nil => simp [lexLt] at h1
    | cons b bs =>
      cases cs with
      | nil => simp [lexLt] at h2
      | cons c cs =>
        simp only [lexLt, charLt, Bool.or_eq_true, Bool.and_eq_true,
          decide_eq_true_eq, beq_iff_eq] at h1 h2 ⊢
        rcases h1 with h1 | ⟨rfl, h1⟩
        · rcases h2 with h2 | ⟨rfl, h2⟩
          · exact Or.inl (lt_trans h1 h2)
          · exact Or.inl h1
        · rcases h2 with h2 | ⟨rfl, h2⟩
          · exact Or.inl h2
          · exact Or.inr ⟨rfl, ih bs cs h1 h2⟩

lemma lexLt_trichotomy : ∀ as bs : List Char,
    lexLt as bs = true ∨ as = bs ∨ lexLt bs as = true := by
  intro as
  induction as with
  | nil =>
    intro bs
    cases bs with
    | nil => exact Or.inr (Or.inl rfl)
    | cons b bs => exact Or.inl (by simp [lexLt])
  | cons a as ih =>
    intro bs
    cases bs with
    | nil => exact Or.inr (Or.inr (by simp [lexLt]))
    | cons b bs =>
      rcases lt_trichotomy a b with h | h | h
      · exact Or.inl (by simp [lexLt, charLt, h])
      · subst h
        rcases ih bs with h1 | h1 | h1
        · exact Or.inl (by simp [lexLt, charLt, h1])
        · exact Or.inr (Or.inl (by rw [h1]))
        · exact Or.inr (Or.inr (by simp [lexLt, charLt, h1]))
      · exact Or.inr (Or.inr (by simp [lexLt, charLt, h]))

lemma strLe_total (s t : String) : strLe s t = true ∨ strLe t s = true := by
  rcases lexLt_trichotomy s.data t.data with h | h | h
  · exact Or.inl (by simp [strLe, strLt, h])
  · have : s = t := by
      cases s; cases t; exact congrArg String.mk h
    exact Or.inl (by simp [strLe, this])
  · exact Or.inr (by simp [strLe, strLt, h])

lemma strLe_trans (s t u : String) (h1 : strLe s t = true) (h2 : strLe t u = true) :
    strLe s u = true := by
  simp only [strLe, Bool.or_eq_true, beq_iff_eq] at h1 h2 ⊢
  rcases h1 with h1 | rfl
  · rcases h2 with h2 | rfl
    · exact Or.inl (lexLt_trans _ _ _ h1 h2)
    · exact Or.inl h1
  · exact h2

lemma strLt_of_strLe_ne (s t : String) (h : strLe s t = true) (hne : s ≠ t) :
    strLt s t = true := by
  simp only [strLe, Bool.or_eq_true, beq_iff_eq] at h
  rcases h with h | rfl
  · exact h
  · exact absurd rfl hne

lemma mem_insertLe_of_mem {le : α → α → Bool} {x a : α} {l : List α}
    (h : a ∈ insertLe le x l) : a = x ∨ a ∈ l :=
  mem_insertLe.mp h

lemma insertLe_entOrd (x : Entry) (l : List Entry)
    (hl : l.Pairwise entOrd)
    (hkey : ∀ y ∈ l, strLt x.key y.key = true) :
    (insertLe entLe x l).Pairwise entOrd := by
  induction l with
  | nil => simp [insertLe]
  | cons y ys ih =>
    rcases List.pairwise_cons.mp hl with ⟨hy, hys⟩
    by_cases h : entLe x y
    · simp only [insertLe, h, if_true]
      have hxy : y.total ≤ x.total := by
        simpa [entLe] using h
      refine List.pairwise_cons.mpr ⟨?_, hl⟩
      intro z hz
      rcases List.mem_cons.mp hz with h1 | hz
      · subst h1
        rcases lt_or_eq_of_le hxy with h2 | h2
        · exact Or.inl h2
        · exact Or.inr ⟨h2, hkey z (List.mem_cons_self z ys)⟩
      · rcases hy z hz with h2 | ⟨h2, h3⟩
        · exact Or.inl (lt_of_lt_of_le h2 hxy)
        · rcases lt_or_eq_of_le hxy with h4 | h4
          · exact Or.inl (h2 ▸ h4)
          · exact Or.inr ⟨h2.trans h4, hkey z (List.mem_cons_of_mem _ hz)⟩
    · simp only [insertLe, h, Bool.false_eq_true, if_false]
      have hyx : x.total < y.total := by
        simp only [entLe, decide_eq_true_eq] at h
        exact lt_of_not_le h
      refine List.pairwise_cons.mpr
        ⟨?_, ih hys (fun z hz => hkey z (List.mem_cons_of_mem _ hz))⟩
      intro z hz
      rcases mem_insertLe_of_mem hz with h1 | hz
      · subst h1; exact Or.inl hyx
      · exact hy z hz

lemma sortEntries_entOrd (l : List Entry)
    (h : l.Pairwise (fun a b => strLt a.key b.key = true)) :
    (sortLe entLe l).Pairwise entOrd := by
  induction l with
  | nil => simp [sortLe]
  | cons x xs ih =>
    rcases List.pairwise_cons.mp h with ⟨hx, hxs⟩
    refine insertLe_entOrd x (sortLe entLe xs) (ih hxs) ?_
    intro y hy
    exact hx y ((sortLe_perm entLe xs).mem_iff.mp hy)

lemma groupKeys_nodup (key : Tx → Option String) (l : List Tx) :
    (groupKeys key l).Nodup :=
  ((sortLe_perm strLe (l.filterMap key).dedup).nodup_iff).mpr (List.nodup_dedup _)

lemma groupKeys_pairwise (key : Tx → Option String) (l : List Tx) :
    (groupKeys key l).Pairwise (fun a b => strLt a b = true) := by
  have hle := sortLe_pairwise strLe strLe_total strLe_trans (l.filterMap key).dedup
  have hnd : (groupKeys key l).Pairwise (fun a b => a ≠ b) := groupKeys_nodup key l
  exact (hle.and hnd).imp (fun h => strLt_of_strLe_ne _ _ h.1 h.2)

lemma drawIdx_length : ∀ (seed k : Nat) (pool : List Nat), k ≤ pool.length →
    (drawIdx seed k pool).length = k := by
  intro seed k
  induction k generalizing seed with
  | zero => intro pool h; simp [drawIdx]
  | succ k ih =>
    intro pool h
    have hp : 0 < pool.length := Nat.lt_of_lt_of_le (Nat.succ_pos k) h
    have hx : pool.get ⟨seed % pool.length, Nat.mod_lt seed hp⟩ ∈ pool := List.get_mem _ _ _
    simp only [drawIdx, hp, dif_pos, List.length_cons]
    rw [ih (seed + 1) _ ?_]
    rw [List.length_erase_of_mem hx]
    omega

lemma drawIdx_subset : ∀ (seed k : Nat) (pool : List Nat),
    ∀ i ∈ drawIdx seed k pool, i ∈ pool := by
  intro seed k
  induction k generalizing seed with
  | zero => intro pool i h; simp [drawIdx] at h
  | succ k ih =>
    intro pool i h
    by_cases hp : 0 < pool.length
    · simp only [drawIdx, hp, dif_pos, List.mem_cons] at h
      rcases h with h | h
      · exact h ▸ List.get_mem _ _ _
      · exact List.erase_subset _ _ (ih (seed + 1) _ i h)
    · simp [drawIdx, hp] at h

lemma drawIdx_nodup : ∀ (seed k : Nat) (pool : List Nat), pool.Nodup →
    (drawIdx seed k pool).Nodup := by
  intro seed k
  induction k generalizing seed with
  | zero => intro pool h; simp [drawIdx]
  | succ k ih =>
    intro pool hnd
    by_cases hp : 0 < pool.length
    · simp only [drawIdx, hp, dif_pos, List.nodup_cons]
      constructor
      · intro hmem
        exact hnd.not_mem_erase (drawIdx_subset (seed + 1) k _ _ hmem)
      · exact ih (seed + 1) _ (hnd.erase _)
    · simp [drawIdx, hp]

lemma map_getD_range {α : Type} (l : List α) (d : α) :
    (List.range l.length).map (fun i => l.getD i d) = l := by
  induction l with
  | nil => simp
  | cons a l ih =>
    rw [List.length_cons, List.range_succ_eq_map, List.map_cons, List.map_map]
    have h2 : (fun i => (a :: l).getD i d) ∘ Nat.succ = fun i => l.getD i d := by
      funext i
      simp
    rw [h2, ih, List.getD_cons_zero]

lemma groupAgg_skip_none (key : Tx → Option String) (amt : Tx → ℚ)
    (l1 l2 : List Tx) (r : Tx) (h : key r = none) :
    groupAgg key amt (l1 ++ r :: l2) = groupAgg key amt (l1 ++ l2) := by
  have hkeys : groupKeys key (l1 ++ r :: l2) = groupKeys key (l1 ++ l2) := by
    simp [groupKeys, List.filterMap_append, List.filterMap_cons, h]
  have hrows : ∀ k, rowsWithKey key k (l1 ++ r :: l2) = rowsWithKey key k (l1 ++ l2) := by
    intro k
    simp [rowsWithKey, List.filter_append, List.filter_cons, h]
  simp [groupAgg, hkeys, hrows]

lemma reclassify_idem (t : Tx) : reclassify (reclassify t) = reclassify t := by
  by_cases h : matchesKeyword t.description <;> simp [reclassify, h]

/-- C6: numeric coercion of the amount fields is total: it is a plain
function into `ℚ` (so no source value raises), a missing cell maps to `0`,
a non-numeric cell maps to `0`, and a numeric cell maps to its value. -/
theorem coercion_total :
    coerceAmount none = 0
    ∧ (∀ s : String, parseNumeric s = none → coerceAmount (some s) = 0)
    ∧ (∀ (s : String) (q : ℚ), parseNumeric s = some q → coerceAmount (some s) = q) := by
  refine ⟨rfl, ?_, ?_⟩
  · intro s h; simp [coerceAmount, h]
  · intro s q h; simp [coerceAmount, h]

theorem coercion_total_witness :
    parseNumeric "N/A" = none ∧ coerceAmount (some "N/A") = 0 :=
  ⟨rfl, coercion_total.2.1 "N/A" rfl⟩

/-- C8: when the external generation call fails, the insight operation
returns the inline diagnostic string instead of propagating the failure. -/
theorem generation_failure_degrades (gen : String → Except String String) (p e : String)
    (h : gen p = Except.error e) :
    getGeminiInsights gen p = "Could not generate insights due to an error: " ++ e := by
  simp [getGeminiInsights, h]

theorem generation_failure_degrades_witness :
    getGeminiInsights (fun _ => Except.error "429 quota exhausted") "report please"
      = "Could not generate insights due to an error: " ++ "429 quota exhausted" :=
  generation_failure_degrades (fun _ => Except.error "429 quota exhausted")
    "report please" "429 quota exhausted" rfl

/-- C10: a positive-debit row whose beneficiary is missing contributes to
no outflow-leaderboard entry: deleting it leaves the leaderboard unchanged. -/
theorem outflow_excludes_missing_beneficiary (df1 df2 : List Tx) (r : Tx)
    (h1 : 0 < r.debit_amount) (h2 : r.beneficiary_name = none) :
    outflowLeaderboard (df1 ++ r :: df2) = outflowLeaderboard (df1 ++ df2) := by
  have hdeb : debitRows (df1 ++ r :: df2) = debitRows df1 ++ r :: debitRows df2 := by
    simp [debitRows, List.filter_append, List.filter_cons, h1]
  have hdeb2 : debitRows (df1 ++ df2) = debitRows df1 ++ debitRows df2 := by
    simp [debitRows, List.filter_append]
  unfold outflowLeaderboard outflowEntries
  rw [hdeb, hdeb2, groupAgg_skip_none _ _ _ _ _ h2]

theorem outflow_excludes_missing_beneficiary_witness :
    0 < txC10.debit_amount ∧ txC10.beneficiary_name = none
    ∧ outflowLeaderboard ([] ++ txC10 :: []) = outflowLeaderboard ([] ++ []) :=
  ⟨by decide, rfl, outflow_excludes_missing_beneficiary [] [] txC10 (by decide) rfl⟩

/-- C2: the reclassification pass is a pure function of the description: it
rewrites `transaction_type` to `Credit` exactly when the description
case-insensitively contains one of the keywords Freelance, Dividend, Refund,
Interest, leaves every other field unchanged, and is idempotent on any
transaction set. -/
theorem reclassification_pure_idempotent (df : List Tx) (t : Tx) :
    ((reclassify t).transaction_type
      = if matchesKeyword t.description then some "Credit" else t.transaction_type)
    ∧ (reclassify t).description = t.description
    ∧ (reclassify t).debit_amount = t.debit_amount
    ∧ (reclassify t).credit_amount = t.credit_amount
    ∧ (reclassify t).category = t.category
    ∧ (reclassify t).beneficiary_name = t.beneficiary_name
    ∧ (reclassify t).month = t.month
    ∧ (reclassify t).date = t.date
    ∧ (df.map reclassify).map reclassify = df.map reclassify := by
  refine ⟨?_, ?_, ?_, ?_, ?_, ?_, ?_, ?_, ?_⟩
  case _ => by_cases h : matchesKeyword t.description <;> simp [reclassify, h]
  case _ => by_cases h : matchesKeyword t.description <;> simp [reclassify, h]
  case _ => by_cases h : matchesKeyword t.description <;> simp [reclassify, h]
  case _ => by_cases h : matchesKeyword t.description <;> simp [reclassify, h]
  case _ => by_cases h : matchesKeyword t.description <;> simp [reclassify, h]
  case _ => by_cases h : matchesKeyword t.description <;> simp [reclassify, h]
  case _ => by_cases h : matchesKeyword t.description <;> simp [reclassify, h]
  case _ => by_cases h : matchesKeyword t.description <;> simp [reclassify, h]
  case _ =>
    rw [List.map_map]
    exact List.map_congr_left (fun a _ => reclassify_idem a)
/-- C1: the monthly summary partitions the set by period key, so its
`Total_Income` column sums to the credit total of all rows and its
`Total_Spending` column sums to the debit total of all rows. -/
theorem monthly_totals_consistent (df : List Tx) :
    ((monthlySummary df).map (fun e => e.2.1)).sum
      = (df.map (fun t => t.credit_amount)).sum
    ∧ ((monthlySummary df).map (fun e => e.2.2)).sum
      = (df.map (fun t => t.debit_amount)).sum := by
  have hnd : (sortLe monthLe (df.map (fun t => t.month)).dedup).Nodup :=
    ((sortLe_perm monthLe (df.map (fun t => t.month)).dedup).nodup_iff).mpr
      (List.nodup_dedup _)
  have hmem : ∀ t ∈ df, t.month ∈ sortLe monthLe (df.map (fun t => t.month)).dedup := by
    intro t ht
    exact (sortLe_perm monthLe _).mem_iff.mpr
      (List.mem_dedup.mpr (List.mem_map_of_mem _ ht))
  constructor
  · have h := sum_groups (fun t : Tx => t.month) (fun t : Tx => t.credit_amount)
      (sortLe monthLe (df.map (fun t => t.month)).dedup) df hnd hmem
    simpa [monthlySummary, List.map_map, Function.comp_def] using h
  · have h := sum_groups (fun t : Tx => t.month) (fun t : Tx => t.debit_amount)
      (sortLe monthLe (df.map (fun t => t.month)).dedup) df hnd hmem
    simpa [monthlySummary, List.map_map, Function.comp_def] using h

/-- C3: for every seed, when the set has more than 500 rows the excerpt
indices are 500 distinct valid row positions; otherwise the excerpt is the
whole set. -/
theorem sampling_size (seed : Nat) (df : List Tx) :
    (500 < df.length →
      (sampleIndices seed df).length = 500
      ∧ (sampleIndices seed df).Nodup
      ∧ (∀ i ∈ sampleIndices seed df, i < df.length))
    ∧ (df.length ≤ 500 → sampleRows seed df = df) := by
  constructor
  · intro h
    have hr : sampleIndices seed df = drawIdx seed 500 (List.range df.length) := by
      simp [sampleIndices, h]
    refine ⟨?_, ?_, ?_⟩
    · rw [hr]
      exact drawIdx_length seed 500 _ (by simpa using le_of_lt h)
    · rw [hr]
      exact drawIdx_nodup seed 500 _ (List.nodup_range _)
    · intro i hi
      rw [hr] at hi
      exact List.mem_range.mp (drawIdx_subset seed 500 _ i hi)
  · intro h
    have hnot : ¬ 500 < df.length := not_lt.mpr h
    have hidx : sampleIndices seed df = List.range df.length := by
      simp [sampleIndices, hnot]
    unfold sampleRows
    rw [hidx]
    exact map_getD_range df defaultTx

theorem sampling_size_witness :
    (500 < (List.replicate 501 defaultTx).length
      ∧ (sampleIndices 7 (List.replicate 501 defaultTx)).length = 500)
    ∧ ([defaultTx].length ≤ 500 ∧ sampleRows 7 [defaultTx] = [defaultTx]) :=
  ⟨⟨by rw [List.length_replicate]; decide,
    ((sampling_size 7 (List.replicate 501 defaultTx)).1
      (by rw [List.length_replicate]; decide)).1⟩,
   ⟨by simp, (sampling_size 7 [defaultTx]).2 (by simp)⟩⟩


/-- C4 amended: each leaderboard has at most 10 entries and is sorted in
strictly descending total order, with equal totals ordered by ascending
lexicographic grouping key (pandas pre-sorts group keys and the
`sort_values` step is embedded as a stable sort on the total). -/
theorem leaderboard_shape (df : List Tx) :
    (outflowLeaderboard df).length ≤ 10
    ∧ (inflowLeaderboard df).length ≤ 10
    ∧ (outflowLeaderboard df).Pairwise entOrd
    ∧ (inflowLeaderboard df).Pairwise entOrd := by
  have hlen : ∀ l : List Entry, (l.take 10).length ≤ 10 := by
    intro l; rw [List.length_take]; exact min_le_left _ _
  have hsorted : ∀ (key : Tx → Option String) (amt : Tx → ℚ) (l : List Tx),
      (sortEntriesDesc (groupAgg key amt l)).Pairwise entOrd := by
    intro key amt l
    apply sortEntries_entOrd
    unfold groupAgg
    refine List.pairwise_map.mpr ?_
    simpa using groupKeys_pairwise key l
  exact ⟨hlen _, hlen _,
    (hsorted _ _ _).sublist (List.take_sublist 10 _),
    (hsorted _ _ _).sublist (List.take_sublist 10 _)⟩

/-- C4 counterexample: two beneficiaries with equal totals, `Zeta Stores`
encountered first in row order.  The claim predicts the tie resolved as
`[Zeta Stores, Alpha Mart]`; the code produces the alphabetical order
`[Alpha Mart, Zeta Stores]`. -/
theorem leaderboard_tiebreak_cex :
    (outflowLeaderboard [txZeta, txAlpha]).map (fun e => e.key)
      = ["Alpha Mart", "Zeta Stores"]
    ∧ (outflowLeaderboard [txZeta, txAlpha]).map (fun e => e.key)
      ≠ ["Zeta Stores", "Alpha Mart"] := by
  have hent : outflowEntries [txZeta, txAlpha]
      = [⟨"Alpha Mart", 100, 1⟩, ⟨"Zeta Stores", 100, 1⟩] := by
    simp +decide [outflowEntries, groupAgg, groupKeys, rowsWithKey, debitRows,
      sortLe, insertLe, strLe, strLt, lexLt, charLt, txZeta, txAlpha]
  have h : (outflowLeaderboard [txZeta, txAlpha]).map (fun e => e.key)
      = ["Alpha Mart", "Zeta Stores"] := by
    rw [outflowLeaderboard, hent]
    simp +decide [sortEntriesDesc, sortLe, insertLe, entLe]
  exact ⟨h, by rw [h]; decide⟩


/-- C5 amended: a positive-credit row with missing beneficiary and present
description groups under the description value (its group total counts the
row), and a credit row has a present grouping key whenever its beneficiary
or its description is present; with both missing the key is missing too
(see the counterexample), so the unconditional non-empty-key invariant of
the claim does not hold. -/
theorem inflow_fallback (df1 df2 : List Tx) (r : Tx) (d : String)
    (h1 : 0 < r.credit_amount) (h2 : r.beneficiary_name = none)
    (h3 : r.description = some d) :
    inflowSource r = some d
    ∧ inflowTotal (df1 ++ r :: df2) d = inflowTotal (df1 ++ df2) d + r.credit_amount
    ∧ (∀ t : Tx, t.beneficiary_name.isSome ∨ t.description.isSome
        → (inflowSource t).isSome) := by
  have hsrc : inflowSource r = some d := by
    simp [inflowSource, h2, h3]
  refine ⟨hsrc, ?_, ?_⟩
  · have hcred : creditRows (df1 ++ r :: df2) = creditRows df1 ++ r :: creditRows df2 := by
      simp [creditRows, List.filter_append, List.filter_cons, h1]
    have hcred2 : creditRows (df1 ++ df2) = creditRows df1 ++ creditRows df2 := by
      simp [creditRows, List.filter_append]
    unfold inflowTotal
    rw [hcred, hcred2]
    simp [rowsWithKey, List.filter_append, List.filter_cons, hsrc,
      List.map_append, List.sum_append]
    ring
  · intro t ht
    cases hb : t.beneficiary_name with
    | some b => simp [inflowSource, hb]
    | none =>
      rcases ht with ht | ht
      · rw [hb] at ht; simp at ht
      · simp [inflowSource, hb, ht]

theorem inflow_fallback_witness :
    0 < txRefund.credit_amount ∧ txRefund.beneficiary_name = none
    ∧ inflowSource txRefund = some "Refund from store" :=
  ⟨by decide, rfl,
    (inflow_fallback [] [] txRefund "Refund from store" (by decide) rfl rfl).1⟩

/-- C5 counterexample: a credit row whose beneficiary and description are
both missing has a missing grouping key, and the row is dropped from the
inflow leaderboard entirely, refuting the invariant that every credit row
has a non-empty grouping key. -/
theorem inflow_missing_key_cex :
    0 < txNoKey.credit_amount
    ∧ inflowSource txNoKey = none
    ∧ inflowLeaderboard [txNoKey] = [] := by
  refine ⟨by decide, rfl, ?_⟩
  simp +decide [inflowLeaderboard, inflowEntries, groupAgg, groupKeys,
    rowsWithKey, creditRows, inflowSource, sortEntriesDesc, sortLe, txNoKey]

/-- C7 amended: the load aborts (returns the error value) when any of
`Transaction_Date`, `Description`, `Debit_Amount`, `Credit_Amount` is
missing, and succeeds when those four are present and every date cell is
acceptable; a missing `Category`, `Beneficiary_Name` or `Transaction_Type`
column does not by itself abort the load (see the counterexample). -/
theorem load_required_columns (t : RawTable) :
    ((hasCol t "Transaction_Date" = false ∨ hasCol t "Description" = false
        ∨ hasCol t "Debit_Amount" = false ∨ hasCol t "Credit_Amount" = false)
      → load t = none)
    ∧ (hasCol t "Transaction_Date" = true → hasCol t "Description" = true
      → hasCol t "Debit_Amount" = true → hasCol t "Credit_Amount" = true
      → (∀ r ∈ t.rows, dateOk r.transaction_date = true)
      → (load t).isSome = true) := by
  constructor
  · intro h
    rcases h with h | h | h | h
    all_goals simp [load, h]
  · intro h1 h2 h3 h4 h5
    have hall : t.rows.all (fun r => dateOk r.transaction_date) = true :=
      List.all_eq_true.mpr h5
    simp [load, h1, h2, h3, h4, hall]

/-- C7 counterexample: a table whose header lacks the required column
`Category` still loads to a transaction set, refuting the claim that a
missing `Category` yields a load error. -/
theorem load_missing_category_cex :
    hasCol tableMissingCategory "Category" = false
    ∧ (load tableMissingCategory).isSome = true := by
  refine ⟨by decide, ?_⟩
  decide

theorem load_required_columns_witness :
    (hasCol tableMissingDebit "Debit_Amount" = false ∧ load tableMissingDebit = none)
    ∧ (load tableMissingCategory).isSome = true :=
  ⟨⟨by decide, (load_required_columns tableMissingDebit).1
      (Or.inr (Or.inr (Or.inl (by decide))))⟩,
   (load_required_columns tableMissingCategory).2 (by decide) (by decide)
     (by decide) (by decide) (by decide)⟩

/-- C9 amended: the pipeline never deletes, reorders or rewrites any
loaded field of any row — the monthly summary consumes the set unchanged —
but the inflow step does add the derived `Inflow_Source` column to the set
in place, so the set itself is not left fully unchanged (see the
counterexample). -/
theorem pipeline_frame (df : List Tx) :
    (assignInflowSource df).map eraseInflow = df.map eraseInflow
    ∧ (assignInflowSource df).length = df.length
    ∧ monthlySummary (assignInflowSource df) = monthlySummary df := by
  refine ⟨?_, by simp [assignInflowSource], ?_⟩
  · simp [assignInflowSource, eraseInflow, List.map_map, Function.comp_def]
  · unfold monthlySummary assignInflowSource
    simp [List.map_map, Function.comp_def, List.filter_map]

/-- C9 counterexample: on a loaded snapshot (where `Inflow_Source` is
absent), the inflow-leaderboard step changes the set: it adds the derived
column, so the snapshot is not left unchanged by all operations. -/
theorem snapshot_mutated_cex :
    txBene.inflow_source = none ∧ assignInflowSource [txBene] ≠ [txBene] := by
  exact ⟨rfl, by decide⟩

end PortingDemo
